import Mathlib

/-!
Verification of the json-schema document store core.

This file gives a shallow embedding of the core of the repository
(`src/lib/json_schema_core`): the JSON-Pointer engine
(`utils/json_pointer.py`), the document metadata value object
(`domain/metadata.py`), the document service with its optimistic-locking
mutation protocol (`services/document_service.py`), and the schema
resolver with reference inlining and cycle detection
(`services/schema_service.py`).

Python values are modelled by the inductive `Json`; Python dicts become
insertion-ordered association lists (`getKey`/`setKey`/`delKey` mirror
`d[k]` / `d[k] = v` / `del d[k]`, with `setKey` keeping an existing key
at its original position exactly as CPython dicts do).  Exceptions become
an error ADT threaded through `Except`; `copy.deepcopy` is the identity
on immutable functional trees, and in-place mutation of a fresh deep copy
is modelled by returning the rebuilt tree.  The unbounded Python recursion
of the schema resolver is modelled with an explicit fuel parameter so that
non-termination is expressible as exhaustion of every fuel.
-/

namespace JsonSchemaCore

/-- A Python/JSON value: null, booleans, numbers, strings, lists, dicts.
Numbers are modelled as integers (the claims never exercise floats);
dicts are insertion-ordered association lists as in CPython. -/
inductive Json where
  | null
  | bool (b : Bool)
  | num (n : Int)
  | str (s : String)
  | arr (items : List Json)
  | obj (fields : List (String × Json))
deriving Repr, Inhabited

/-- Dict lookup `d[k]` / `k in d`: first (and only, keys are unique) match. -/
def getKey {α : Type} : List (String × α) → String → Option α
  | [], _ => none
  | (k, v) :: rest, key => if k = key then some v else getKey rest key

/-- Dict assignment `d[k] = v`: replaces in place if the key exists
(CPython keeps the original insertion position), else appends. -/
def setKey {α : Type} : List (String × α) → String → α → List (String × α)
  | [], key, v => [(key, v)]
  | (k, w) :: rest, key, v =>
      if k = key then (key, v) :: rest else (k, w) :: setKey rest key v

/-- Dict deletion `del d[k]`: removes the (unique) binding of the key. -/
def delKey {α : Type} : List (String × α) → String → List (String × α)
  | [], _ => []
  | (k, w) :: rest, key => if k = key then rest else (k, w) :: delKey rest key

/-- One structured violation as built by the services: the dict
`\x7b"message": ..., "path": ..., "validator": ...\x7d` (the `path` of the
circular-reference violation is the empty string in the source). -/
structure Violation where
  message : String
  path : String
  validator : String
deriving Repr, DecidableEq

/-- The typed failures of the core, one constructor per Python exception
kind raised by the embedded code (`domain/errors.py` plus the `ValueError`s
raised directly by the services and the pointer engine). -/
inductive Err where
  | malformedPointer (pointer : String)
  | pathNotFound (pointer : String)
  | invalidOperation (msg : String)
  | documentNotFound (docId : String)
  | versionConflict (expected actual : Int)
  | validationFailed (errors : List Violation)
  | invalidId (docId : String)
  | alreadyExists (docId : String)
  | storageFailure (msg : String)
  | refPathUnresolved (msg : String)
  | attributeError
  | fuelExhausted
deriving Repr, DecidableEq

/-! ### Character-level string helpers

The pointer engine works on Python strings via `split`, `replace`,
`startswith` and `int()`.  These are re-implemented structurally on the
character list so that every definition reduces in the kernel. -/
/-- Python `s.split(sep)` for a one-character separator: `""` yields `[""]`,
`"a/b"` yields `["a", "b"]`, a trailing separator yields an empty token. -/
def chSplit (sep : Char) : List Char → List (List Char)
  | [] => [[]]
  | c :: cs =>
      if c = sep then [] :: chSplit sep cs
      else
        match chSplit sep cs with
        | [] => [[c]]
        | g :: gs => (c :: g) :: gs

/-- Python `s.replace(old, new)` specialised to a two-character pattern
`[a, b]` replaced by the single character `r`: scans left to right,
replacing non-overlapping occurrences. -/
def replace2 (a b r : Char) : List Char → List Char
  | [] => []
  | [c] => [c]
  | x :: y :: rest =>
      if x = a ∧ y = b then r :: replace2 a b r rest
      else x :: replace2 a b r (y :: rest)

/-- RFC 6901 token unescaping as in `parse_pointer`: `part.replace("~1", "/")`
followed by `.replace("~0", "~")`, in that order. -/
def unescapeToken (t : List Char) : List Char :=
  replace2 '~' '0' '~' (replace2 '~' '1' '/' t)

/-- Decimal digit run: `some n` when the list is nonempty and all digits. -/
def digitsVal : List Char → Option Nat
  | [] => none
  | [c] => if c.isDigit then some (c.toNat - '0'.toNat) else none
  | c :: cs =>
      if c.isDigit then
        (digitsVal cs).map fun n => (c.toNat - '0'.toNat) * 10 ^ cs.length + n
      else none

/-- Python `int(part)` as used on pointer tokens: an optional sign followed
by decimal digits.  (Python additionally strips whitespace and allows
underscore digit grouping; pointer tokens never carry those forms.) -/
def pyInt (s : String) : Option Int :=
  match s.data with
  | '-' :: rest => (digitsVal rest).map fun n => -(n : Int)
  | '+' :: rest => (digitsVal rest).map fun n => (n : Int)
  | l => (digitsVal l).map fun n => (n : Int)

/-- The array-index step shared by resolve/set/delete: `index = int(part)`
followed by the `index < 0 or index >= len(current)` bounds check; `none`
is the `except (ValueError, IndexError)` / out-of-bounds path. -/
def arrIndex (part : String) (len : Nat) : Option Nat :=
  match pyInt part with
  | none => none
  | some i => if 0 ≤ i ∧ i < (len : Int) then some i.toNat else none

/-- `List.set` with the same meaning as Python `current[index] = value`. -/
def listSet : List Json → Nat → Json → List Json
  | [], _, _ => []
  | _ :: rest, 0, v => v :: rest
  | x :: rest, n + 1, v => x :: listSet rest n v

/-- `del current[index]`: removes the element at the index. -/
def listDel : List Json → Nat → List Json
  | [], _ => []
  | _ :: rest, 0 => rest
  | x :: rest, n + 1 => x :: listDel rest n

/-- Element at an in-bounds index (callers establish the bound first,
mirroring the bounds check preceding `current[index]` in the source). -/
def listAt : List Json → Nat → Json
  | [], _ => .null
  | x :: _, 0 => x
  | _ :: rest, n + 1 => listAt rest n

/-! ### Pointer engine (`utils/json_pointer.py`) -/
/-- `parse_pointer`: `""` parses to `[]`; a pointer not starting with `/`
raises `ValueError` (the MalformedPointer failure); otherwise the leading
slash is dropped, the rest split on `/`, and each token unescaped. -/
def parse_pointer (pointer : String) : Except Err (List String) :=
  if pointer = "" then .ok []
  else
    match pointer.data with
    | '/' :: rest =>
        .ok ((chSplit '/' rest).map fun t => String.mk (unescapeToken t))
    | _ => .error (.malformedPointer pointer)

/-- The token-by-token walk of `resolve_pointer`: arrays need an in-bounds
non-negative integer token, dicts an existing key, and scalars allow no
further tokens; every failure carries the full original pointer string. -/
def resolveGo (pointer : String) : List String → Json → Except Err Json
  | [], d => .ok d
  | t :: ts, .arr xs =>
      match arrIndex t xs.length with
      | some i => resolveGo pointer ts (listAt xs i)
      | none => .error (.pathNotFound pointer)
  | t :: ts, .obj fs =>
      match getKey fs t with
      | some v => resolveGo pointer ts v
      | none => .error (.pathNotFound pointer)
  | _ :: _, _ => .error (.pathNotFound pointer)

/-- `resolve_pointer`: parse, then walk; the empty token list returns the
whole document. -/
def resolve_pointer (document : Json) (pointer : String) : Except Err Json := do
  let parts ← parse_pointer pointer
  resolveGo pointer parts document

/-- The walk of `set_pointer` after the root check: navigate to the parent
of the final token with the resolve rules (an intermediate dict key must
exist — no auto-creation), then replace at the final token; a final dict
key may be new, a final array index must be in bounds.  The rebuilt tree
models the in-place mutation of the deep copy. -/
def setGo (pointer : String) (value : Json) : List String → Json → Except Err Json
  | [], _ => .error (.pathNotFound pointer)
  | t :: ts, .arr xs =>
      match arrIndex t xs.length with
      | none => .error (.pathNotFound pointer)
      | some i =>
          match ts with
          | [] => .ok (.arr (listSet xs i value))
          | _ :: _ => do
              let c ← setGo pointer value ts (listAt xs i)
              .ok (.arr (listSet xs i c))
  | t :: ts, .obj fs =>
      match ts with
      | [] => .ok (.obj (setKey fs t value))
      | _ :: _ =>
          match getKey fs t with
          | some v => do
              let c ← setGo pointer value ts v
              .ok (.obj (setKey fs t c))
          | none => .error (.pathNotFound pointer)
  | _ :: _, _ => .error (.pathNotFound pointer)

/-- `set_pointer`: the root pointer is rejected with `ValueError`
("Cannot set root pointer"); otherwise the walk above on a deep copy. -/
def set_pointer (document : Json) (pointer : String) (value : Json) :
    Except Err Json := do
  let parts ← parse_pointer pointer
  if parts = [] then .error (.invalidOperation "Cannot set root pointer")
  else setGo pointer value parts document

/-- The walk of `delete_pointer`: parent walk as in `setGo`; the final
array index must be in bounds (element removed, the rest shift down), the
final dict key must exist (binding removed). -/
def delGo (pointer : String) : List String → Json → Except Err Json
  | [], _ => .error (.pathNotFound pointer)
  | t :: ts, .arr xs =>
      match arrIndex t xs.length with
      | none => .error (.pathNotFound pointer)
      | some i =>
          match ts with
          | [] => .ok (.arr (listDel xs i))
          | _ :: _ => do
              let c ← delGo pointer ts (listAt xs i)
              .ok (.arr (listSet xs i c))
  | t :: ts, .obj fs =>
      match getKey fs t with
      | none => .error (.pathNotFound pointer)
      | some v =>
          match ts with
          | [] => .ok (.obj (delKey fs t))
          | _ :: _ => do
              let c ← delGo pointer ts v
              .ok (.obj (setKey fs t c))
  | _ :: _, _ => .error (.pathNotFound pointer)

/-- `delete_pointer`: the root pointer is rejected with `ValueError`
("Cannot delete root pointer"); otherwise the walk above on a deep copy. -/
def delete_pointer (document : Json) (pointer : String) : Except Err Json := do
  let parts ← parse_pointer pointer
  if parts = [] then .error (.invalidOperation "Cannot delete root pointer")
  else delGo pointer parts document

/-! ### Document metadata (`domain/metadata.py`) and storage state

Timestamps are abstract instants (`Nat`); `datetime.now()` becomes an
explicit `now` argument to each operation.  A `Store` is the observable
content of the storage collaborator: the document artifacts and the
metadata artifacts, each keyed by document id.  Service operations return
their result together with the store after any writes; an operation that
fails returns the store it was given, making "performs no write"
provable rather than vacuous. -/
/-- `DocumentMetadata`: doc id, version (for optimistic locking),
creation and last-update timestamps. -/
structure DocumentMetadata where
  doc_id : String
  version : Int
  created_at : Nat
  updated_at : Nat
deriving Repr, DecidableEq

/-- `DocumentMetadata.increment_version`: a new instance with `version + 1`,
`updated_at = datetime.now()`, and `doc_id` / `created_at` carried over. -/
def increment_version (m : DocumentMetadata) (now : Nat) : DocumentMetadata :=
  { doc_id := m.doc_id, version := m.version + 1,
    created_at := m.created_at, updated_at := now }

/-- Storage contents: document artifacts and metadata artifacts by id. -/
structure Store where
  docs : List (String × Json)
  metas : List (String × DocumentMetadata)
deriving Repr

/-- A raised Python exception as the service observes it: its message. -/
structure PyExc where
  msg : String
deriving Repr, DecidableEq

/-- ASCII `str.lower` on one character. -/
def chLower (c : Char) : Char :=
  if 'A' ≤ c ∧ c ≤ 'Z' then Char.ofNat (c.toNat + 32) else c

/-- Does the text start with the pattern? -/
def chStarts : List Char → List Char → Bool
  | [], _ => true
  | _ :: _, [] => false
  | a :: as, b :: bs => a == b && chStarts as bs

/-- Python `pat in text` substring containment. -/
def chHasSub (pat : List Char) : List Char → Bool
  | [] => chStarts pat []
  | c :: cs => chStarts pat (c :: cs) || chHasSub pat cs

/-- The service error dispatch `"not found" in str(e).lower()`. -/
def hasNotFoundSub (msg : String) : Bool :=
  chHasSub "not found".data (msg.data.map chLower)

/-- `storage.read_document(doc_id)` as implemented by `FileSystemStorage`:
the stored tree, or a raised `DocumentNotFoundError` whose message is
"Document not found: " followed by the id. -/
def readDocExc (docs : List (String × Json)) (docId : String) : Except PyExc Json :=
  match getKey docs docId with
  | some d => .ok d
  | none => .error { msg := "Document not found: " ++ docId }

/-- The document-load prologue shared by the service operations: any
exception whose lowercased message contains "not found" is converted to
`DocumentNotFoundError(doc_id)`; any other exception propagates. -/
def loadDocument (docs : List (String × Json)) (docId : String) : Except Err Json :=
  match readDocExc docs docId with
  | .ok d => .ok d
  | .error e =>
      if hasNotFoundSub e.msg then .error (.documentNotFound docId)
      else .error (.storageFailure e.msg)

/-- The external schema-conformance collaborator (`jsonschema.validate`):
given a document and a schema it reports a list of structured violations,
empty when the document conforms. -/
def Checker : Type := Json → Json → List Violation

/-- `ValidationService.validate`: delegate to the external checker and
raise `ValidationFailedError` with the collected violations on failure. -/
def runValidation (checker : Checker) (schema document : Json) : Except Err Unit :=
  match checker document schema with
  | [] => .ok ()
  | e :: es => .error (.validationFailed (e :: es))

/-- The validation step of update/createNode/deleteNode: `if self._schema_cache:`
validate against `next(iter(self._schema_cache.values()))` — the first
schema that happens to be cached; with an empty cache no validation runs. -/
def validateWithCache (checker : Checker) (cache : List (String × Json))
    (document : Json) : Except Err Unit :=
  match cache with
  | [] => .ok ()
  | (_, schema) :: _ => runValidation checker schema document

/-- Python type names for the createNode wrong-parent error message. -/
def pyTypeName : Json → String
  | .null => "NoneType"
  | .bool _ => "bool"
  | .num _ => "int"
  | .str _ => "str"
  | .arr _ => "list"
  | .obj _ => "dict"

/-! ### Document service operations (`services/document_service.py`) -/
/-- `DocumentService.read_node`: load document and metadata (absent =>
`DocumentNotFoundError`), special-case the pointer string "/" to return the
whole document, otherwise delegate to `resolve_pointer`. -/
def read_node (st : Store) (docId nodePath : String) : Except Err (Json × Int) :=
  match loadDocument st.docs docId with
  | .error e => .error e
  | .ok document =>
      match getKey st.metas docId with
      | none => .error (.documentNotFound docId)
      | some md =>
          if nodePath = "/" then .ok (document, md.version)
          else
            match resolve_pointer document nodePath with
            | .error e => .error e
            | .ok value => .ok (value, md.version)

/-- `DocumentService.update_node`: load document and metadata, compare the
stored version with `expected_version` (mismatch raises
`VersionConflictError` before anything is written), apply `set_pointer`,
validate via the schema cache, then write the new document and the
incremented metadata. -/
def update_node (checker : Checker) (cache : List (String × Json)) (st : Store)
    (docId nodePath : String) (value : Json) (expectedVersion : Int) (now : Nat) :
    Except Err (Json × Int) × Store :=
  match loadDocument st.docs docId with
  | .error e => (.error e, st)
  | .ok document =>
      match getKey st.metas docId with
      | none => (.error (.documentNotFound docId), st)
      | some md =>
          if md.version ≠ expectedVersion then
            (.error (.versionConflict expectedVersion md.version), st)
          else
            match set_pointer document nodePath value with
            | .error e => (.error e, st)
            | .ok newDoc =>
                match validateWithCache checker cache newDoc with
                | .error e => (.error e, st)
                | .ok _ =>
                    let md2 := increment_version md now
                    (.ok (value, md2.version),
                      { docs := setKey st.docs docId newDoc,
                        metas := setKey st.metas docId md2 })

/-- Replacement of the node addressed by a token path (used to express the
effect of `parent.append(value)`, which mutates the resolved parent through
its alias into the loaded document). -/
def replaceAt : List String → Json → Json → Option Json
  | [], _, newNode => some newNode
  | t :: ts, .arr xs, newNode =>
      match arrIndex t xs.length with
      | some i => (replaceAt ts (listAt xs i) newNode).map fun c => .arr (listSet xs i c)
      | none => none
  | t :: ts, .obj fs, newNode =>
      match getKey fs t with
      | some v => (replaceAt ts v newNode).map fun c => .obj (setKey fs t c)
      | none => none
  | _ :: _, _, _ => none

/-- `DocumentService.create_node`: after the same load and version-check
discipline as update, resolve the parent; a list parent gets the value
appended (through the alias, so the loaded document changes at
`parent_path`), a dict or scalar parent raises `ValueError`; then validate,
increment, persist.  The dead fallback branches after a successful resolve
are unreachable. -/
def create_node (checker : Checker) (cache : List (String × Json)) (st : Store)
    (docId parentPath : String) (value : Json) (expectedVersion : Int) (now : Nat) :
    Except Err (Json × Int) × Store :=
  match loadDocument st.docs docId with
  | .error e => (.error e, st)
  | .ok document =>
      match getKey st.metas docId with
      | none => (.error (.documentNotFound docId), st)
      | some md =>
          if md.version ≠ expectedVersion then
            (.error (.versionConflict expectedVersion md.version), st)
          else
            match resolve_pointer document parentPath with
            | .error e => (.error e, st)
            | .ok (.arr xs) =>
                match parse_pointer parentPath with
                | .error e => (.error e, st)
                | .ok toks =>
                    match replaceAt toks document (.arr (xs ++ [value])) with
                    | none => (.error (.pathNotFound parentPath), st)
                    | some newDoc =>
                        match validateWithCache checker cache newDoc with
                        | .error e => (.error e, st)
                        | .ok _ =>
                            let md2 := increment_version md now
                            (.ok (value, md2.version),
                              { docs := setKey st.docs docId newDoc,
                                metas := setKey st.metas docId md2 })
            | .ok (.obj _) =>
                (.error (.invalidOperation ("Parent at " ++ parentPath ++
                  " must be an array for append operations, got object")), st)
            | .ok parent =>
                (.error (.invalidOperation ("Parent at " ++ parentPath ++
                  " must be array or object, got " ++ pyTypeName parent)), st)

/-- `DocumentService.delete_node`: the root pointer "/" is rejected first
(`ValueError`, before even looking at storage); then the same load and
version-check discipline; the value at the pointer is resolved (to be
returned), the node deleted, the result validated, metadata incremented,
both artifacts written. -/
def delete_node (checker : Checker) (cache : List (String × Json)) (st : Store)
    (docId nodePath : String) (expectedVersion : Int) (now : Nat) :
    Except Err (Json × Int) × Store :=
  if nodePath = "/" then (.error (.invalidOperation "Cannot delete root node"), st)
  else
    match loadDocument st.docs docId with
    | .error e => (.error e, st)
    | .ok document =>
        match getKey st.metas docId with
        | none => (.error (.documentNotFound docId), st)
        | some md =>
            if md.version ≠ expectedVersion then
              (.error (.versionConflict expectedVersion md.version), st)
            else
              match resolve_pointer document nodePath with
              | .error e => (.error e, st)
              | .ok deletedValue =>
                  match delete_pointer document nodePath with
                  | .error e => (.error e, st)
                  | .ok newDoc =>
                      match validateWithCache checker cache newDoc with
                      | .error e => (.error e, st)
                      | .ok _ =>
                          let md2 := increment_version md now
                          (.ok (deletedValue, md2.version),
                            { docs := setKey st.docs docId newDoc,
                              metas := setKey st.metas docId md2 })

/-! ### Claims C2 and C5: version conflicts and absent documents -/
/-- An external checker reporting no violations. -/
def okChecker : Checker := fun _ _ => []

/-- A store holding one document (id "D", at version 2). -/
def demoStore : Store :=
  { docs := [("D", Json.obj [("title", Json.str "T")])],
    metas := [("D", { doc_id := "D", version := 2, created_at := 0, updated_at := 0 })] }

/-- The empty store: no documents, no metadata. -/
def emptyStore : Store := { docs := [], metas := [] }

/-! ### Schema resolver (`services/schema_service.py`)

`load_schema` / `_resolve_refs` / `_resolve_refs_recursive` with the
visited-set cycle detection.  The unbounded Python recursion is modelled
with a fuel counter consumed one unit per recursive descent;
`.error .fuelExhausted` is not a behaviour of the source — it marks that
the modelled recursion was cut off, so "the source call returns" is
"some fuel avoids `.fuelExhausted`" and "the source call never returns"
is "every fuel is exhausted". -/
/-- `ref.startswith("#/")`. -/
def isLocalRef (ref : String) : Bool :=
  match ref.data with
  | '#' :: '/' :: _ => true
  | _ => false

/-- Python `"/".join(path)`. -/
def joinSlash : List String → String
  | [] => ""
  | t :: ts =>
      match ts with
      | [] => t
      | _ :: _ => t ++ "/" ++ joinSlash ts

/-- The walk of `_navigate_path`: dict-only navigation; a missing key or a
non-dict node raises `ValidationFailedError` carrying a plain string (the
source passes a string where its error class expects a list). -/
def navPath (msg : String) : Json → List String → Except Err Json
  | current, [] => .ok current
  | .obj fs, key :: rest =>
      match getKey fs key with
      | some v => navPath msg v rest
      | none => .error (.refPathUnresolved msg)
  | _, _ :: _ => .error (.refPathUnresolved msg)

/-- `_navigate_path(obj, path)`. -/
def navigatePath (obj : Json) (path : List String) : Except Err Json :=
  navPath ("Cannot resolve reference path: " ++ joinSlash path) obj path

/-- The one-entry violation list reported for a detected reference cycle. -/
def circularViolation (schemaId : String) : Violation :=
  { message := "Circular reference detected: " ++ schemaId,
    path := "", validator := "ref_resolution" }

/-- Resolution of every value of a dict, left to right, stopping at the
first failure (the for-loop over `obj.values()`). -/
def resolveEachWith (f : Json → Except Err Json) :
    List (String × Json) → Except Err (List (String × Json))
  | [] => .ok []
  | (k, v) :: rest => do
      let v2 ← f v
      let rest2 ← resolveEachWith f rest
      .ok ((k, v2) :: rest2)

/-- Resolution of every item of a list (the for-loop over list items). -/
def resolveArrWith (f : Json → Except Err Json) :
    List Json → Except Err (List Json)
  | [] => .ok []
  | x :: rest => do
      let x2 ← f x
      let rest2 ← resolveArrWith f rest
      .ok (x2 :: rest2)

/-- `_resolve_refs_recursive`: a dict containing `$ref` is a reference
marker.  A local `#/` reference navigates `ref[2:].split("/")` (tokens are
not unescaped here) inside the base schema re-read from storage, replaces
the marker and continues on the replacement with the same base and visited
set.  Any other reference value is a schema identifier: re-entering one
already visited fails with the circular-reference violation; otherwise the
referenced schema is fetched and resolution continues inside it with the
identifier added to the visited set.  A dict without `$ref` and a list are
traversed; scalars are returned as they are.  (A non-string `$ref` value
raises `AttributeError` from `startswith`.) -/
def resolveRefsRec (store : List (String × Json)) :
    Nat → Json → String → List String → Except Err Json
  | 0, _, _, _ => .error .fuelExhausted
  | fuel + 1, .obj kvs, baseId, visited =>
      match getKey kvs "$ref" with
      | some (.str ref) =>
          if isLocalRef ref then
            match getKey store baseId with
            | none => .error (.documentNotFound baseId)
            | some baseSchema =>
                match navigatePath baseSchema
                    ((chSplit '/' (ref.data.drop 2)).map String.mk) with
                | .error e => .error e
                | .ok resolved => resolveRefsRec store fuel resolved baseId visited
          else
            if ref ∈ visited then
              .error (.validationFailed [circularViolation ref])
            else
              match getKey store ref with
              | none => .error (.documentNotFound ref)
              | some refSchema =>
                  resolveRefsRec store fuel refSchema ref (ref :: visited)
      | some _ => .error .attributeError
      | none => do
          let pairs ← resolveEachWith
            (fun v => resolveRefsRec store fuel v baseId visited) kvs
          .ok (.obj pairs)
  | fuel + 1, .arr xs, baseId, visited => do
      let items ← resolveArrWith
        (fun x => resolveRefsRec store fuel x baseId visited) xs
      .ok (.arr items)
  | _ + 1, .null, _, _ => .ok .null
  | _ + 1, .bool b, _, _ => .ok (.bool b)
  | _ + 1, .num n, _, _ => .ok (.num n)
  | _ + 1, .str s, _, _ => .ok (.str s)

/-- `_resolve_refs`: check the base id against the visited set, add it,
then resolve recursively on a deep copy. -/
def resolveRefs (store : List (String × Json)) (fuel : Nat) (schema : Json)
    (baseId : String) (visited : List String) : Except Err Json :=
  if baseId ∈ visited then .error (.validationFailed [circularViolation baseId])
  else resolveRefsRec store fuel schema baseId (baseId :: visited)

/-- `SchemaService.load_schema`: a cache hit returns the (deep-copied)
cached schema; otherwise the raw schema is fetched (absence raises
`DocumentNotFoundError`), resolved starting from an empty visited set, and
cached.  Returns the result together with the cache afterwards. -/
def load_schema (store cache : List (String × Json)) (fuel : Nat)
    (schemaId : String) : Except Err Json × List (String × Json) :=
  match getKey cache schemaId with
  | some s => (.ok s, cache)
  | none =>
      match getKey store schemaId with
      | none => (.error (.documentNotFound schemaId), cache)
      | some raw =>
          match resolveRefs store fuel raw schemaId [] with
          | .error e => (.error e, cache)
          | .ok resolved => (.ok resolved, setKey cache schemaId resolved)

/-! ### Claim C6: termination of schema resolution -/
/-- A schema whose only reference is a local cycle:
`definitions.x` refers to `#/definitions/x`. -/
def localCycleSchema : Json :=
  Json.obj [("definitions", Json.obj
    [("x", Json.obj [("$ref", Json.str "#/definitions/x")])])]

/-- The store holding `localCycleSchema` under the identifier "A". -/
def localCycleStore : List (String × Json) := [("A", localCycleSchema)]

/-- "The source call never returns": in the fuel model, the computation is
cut off at every fuel. -/
def loadNeverReturns (store : List (String × Json)) (schemaId : String) : Prop :=
  ∀ fuel : Nat, load_schema store [] fuel schemaId = (.error .fuelExhausted, [])

mutual
/-- No local (`#/`) reference marker occurs anywhere in the tree. -/
def noLocalB : Json → Bool
  | .obj kvs =>
      (match getKey kvs "$ref" with
        | some (.str ref) => !(isLocalRef ref)
        | _ => true) && noLocalKVs kvs
  | .arr xs => noLocalArr xs
  | .null => true
  | .bool _ => true
  | .num _ => true
  | .str _ => true

/-- `noLocalB` over the values of a dict. -/
def noLocalKVs : List (String × Json) → Bool
  | [] => true
  | (_, v) :: rest => noLocalB v && noLocalKVs rest

/-- `noLocalB` over the items of a list. -/
def noLocalArr : List Json → Bool
  | [] => true
  | x :: rest => noLocalB x && noLocalArr rest
end

/-- The identifiers under which the store holds schemas. -/
def storeIds (store : List (String × Json)) : List String := store.map Prod.fst

/-- How many store identifiers are not yet in the visited set: the measure
that shrinks on every cross-schema reference step. -/
def unvisitedCount (store : List (String × Json)) (visited : List String) : Nat :=
  ((storeIds store).filter (fun i => decide (i ∉ visited))).length

/-! ### Custom document id validation (`create_document`, lines 52-66) -/
def chIsDigitAscii (c : Char) : Bool := '0' ≤ c && c ≤ '9'

def chIsLowerAscii (c : Char) : Bool := 'a' ≤ c && c ≤ 'z'

def chIsUpperAscii (c : Char) : Bool := 'A' ≤ c && c ≤ 'Z'

/-- Python `str.isalnum()` on ASCII strings: nonempty and every character
a letter or digit. -/
def pyIsAlnum (s : String) : Bool :=
  !s.data.isEmpty &&
    s.data.all fun c => chIsDigitAscii c || chIsLowerAscii c || chIsUpperAscii c

/-- Python `str.isupper()` on ASCII strings: at least one cased character
and no lowercase one.  Digits are not cased, so a digit-only string is NOT
uppercase for Python. -/
def pyIsUpper (s : String) : Bool :=
  s.data.any chIsUpperAscii && s.data.all fun c => !chIsLowerAscii c

/-- The custom-id block of `create_document`: format check
(`len == 26 and isalnum and isupper`, else `ValueError`), then the storage
probe — a successful read means the id is taken (`ValueError` "already
exists"); a raised exception whose lowercased message contains "not found"
means the id is free; any other exception propagates (`raise`). -/
def checkCustomId (docId : String) (probe : Except PyExc Json) : Except Err Unit :=
  if ¬(docId.length = 26 ∧ pyIsAlnum docId = true ∧ pyIsUpper docId = true) then
    .error (.invalidId docId)
  else
    match probe with
    | .ok _ => .error (.alreadyExists docId)
    | .error e =>
        if hasNotFoundSub e.msg then .ok ()
        else .error (.storageFailure e.msg)

/-! ### Default-value application (`validation_service.py`) -/
/-- `"default" in prop_schema`: key membership when the property schema is
a dict; for the non-dict property schemas arising here the Python
membership test is likewise false. -/
def hasDefault (pschema : Json) : Bool :=
  match pschema with
  | .obj pk => (getKey pk "default").isSome
  | _ => false

/-- `prop_schema["default"]`, only consulted under `hasDefault`. -/
def defaultOf (pschema : Json) : Json :=
  match pschema with
  | .obj pk => (getKey pk "default").getD .null
  | _ => .null

/-- `prop_schema.get("type") == "object"` (with the guarding
`isinstance(prop_schema, dict)`). -/
def typeIsObject (pschema : Json) : Bool :=
  match pschema with
  | .obj pk =>
      match getKey pk "type" with
      | some (.str t) => t == "object"
      | _ => false
  | _ => false

mutual
/-- `_apply_defaults_recursive`: walk the schema's `properties`; a property
with a declared default absent from the document is inserted (new keys go
to the end, as in CPython); a property present in both whose schema is
object-typed and whose document value is a dict is recursed into in place.
Non-dict schemas and schemas without a `properties` dict change nothing.
(For a non-dict document with a defaulting property the source would raise
`TypeError` on `document[prop_name] = ...`; the modelled service flows
only reach this walk with dict documents.) -/
def applyDefaultsRec (doc schema : Json) : Json :=
  match schema with
  | .obj skvs =>
      match hp : getKey skvs "properties" with
      | some (.obj props) => applyProps doc props
      | _ => doc
  | _ => doc
termination_by sizeOf schema
decreasing_by
  simp_wf
  have key : ∀ (pk2 props2 : List (String × Json)),
      getKey pk2 "properties" = some (Json.obj props2) →
      sizeOf props2 < 1 + sizeOf pk2 := by
    intro pk2
    induction pk2 with
    | nil => intro props2 h; simp [getKey] at h
    | cons hd rest ih =>
        obtain ⟨k0, w⟩ := hd
        intro props2 h
        rw [getKey] at h
        by_cases hk : k0 = "properties"
        · rw [if_pos hk] at h
          have hw : w = Json.obj props2 := by simpa using h
          subst hw
          have h5 : sizeOf (Json.obj props2) = 1 + sizeOf props2 := by simp
          have h6 : sizeOf ((k0, Json.obj props2)) =
              1 + sizeOf k0 + sizeOf (Json.obj props2) := rfl
          have h7 : sizeOf ((k0, Json.obj props2) :: rest) =
              1 + sizeOf (k0, Json.obj props2) + sizeOf rest := by simp
          omega
        · rw [if_neg hk] at h
          have h8 := ih props2 h
          have h9 : sizeOf ((k0, w) :: rest) =
              1 + sizeOf (k0, w) + sizeOf rest := by simp
          omega
  exact key pk props hp

/-- The property loop of `_apply_defaults_recursive`. -/
def applyProps (doc : Json) : List (String × Json) → Json
  | [] => doc
  | (name, pschema) :: rest =>
      let doc2 :=
        match doc with
        | .obj dkvs =>
            if hasDefault pschema && (getKey dkvs name).isNone then
              Json.obj (setKey dkvs name (defaultOf pschema))
            else
              match getKey dkvs name with
              | some dv =>
                  if typeIsObject pschema &&
                      (match dv with | .obj _ => true | _ => false) then
                    Json.obj (setKey dkvs name (applyDefaultsRec dv pschema))
                  else doc
              | none => doc
        | _ => doc
      applyProps doc2 rest
termination_by ps => sizeOf ps
decreasing_by
  all_goals simp_wf
  all_goals omega
end

/-- `ValidationService.apply_defaults`: deep-copy then walk (the copy is
the identity here). -/
def apply_defaults (document schema : Json) : Json :=
  applyDefaultsRec document schema

/-! ### Document creation (`DocumentService.create_document`) -/
/-- Combined mutable state of the two services: storage contents, the
DocumentService schema cache, and the SchemaService resolved-schema cache. -/
structure SvcState where
  store : Store
  dcache : List (String × Json)
  scache : List (String × Json)
deriving Repr

/-- The tail of `create_document` once the schema is at hand: apply
defaults, validate (a nonempty violation list raises
`ValidationFailedError`), take the custom or generated id, build metadata
at version 1 with both timestamps `now`, and write document then
metadata. -/
def createWithSchema (checker : Checker) (st : Store) (schema document : Json)
    (customId : Option String) (genId : String) (now : Nat) :
    Except Err ((String × DocumentMetadata) × Store) :=
  let documentWithDefaults := apply_defaults document schema
  match checker documentWithDefaults schema with
  | [] =>
      let docId := customId.getD genId
      let metadata : DocumentMetadata :=
        { doc_id := docId, version := 1, created_at := now, updated_at := now }
      .ok ((docId, metadata),
        { docs := setKey st.docs docId documentWithDefaults,
          metas := setKey st.metas docId metadata })
  | e :: es => .error (.validationFailed (e :: es))

/-- `DocumentService.create_document`: optional custom-id validation and
uniqueness probe; schema load through the service's own cache (which is
filled before defaults/validation run, so a failed validation still leaves
the schema cached); defaults, validation, id choice, metadata at version 1,
persistence.  `genId` stands for the out-of-scope `DocumentId.generate()` and
`now` for `datetime.now()`. -/
def create_document (checker : Checker) (schemaStore : List (String × Json))
    (fuel : Nat) (s : SvcState) (schemaId : String) (document : Json)
    (customId : Option String) (genId : String) (now : Nat) :
    Except Err (String × DocumentMetadata) × SvcState :=
  let idCheck : Except Err Unit :=
    match customId with
    | none => .ok ()
    | some cid => checkCustomId cid (readDocExc s.store.docs cid)
  match idCheck with
  | .error e => (.error e, s)
  | .ok _ =>
      match getKey s.dcache schemaId with
      | some schema =>
          match createWithSchema checker s.store schema document customId genId now with
          | .error e => (.error e, s)
          | .ok (res, store2) => (.ok res, { s with store := store2 })
      | none =>
          match load_schema schemaStore s.scache fuel schemaId with
          | (.error e, scache2) => (.error e, { s with scache := scache2 })
          | (.ok schema, scache2) =>
              let s2 : SvcState :=
                { store := s.store, dcache := setKey s.dcache schemaId schema,
                  scache := scache2 }
              match createWithSchema checker s.store schema document customId genId now with
              | .error e => (.error e, s2)
              | .ok (res, store2) => (.ok res, { s2 with store := store2 })

/-! ### Claim C1: which schema mutations are validated against -/
/-- A checker that reports a violation for every document/schema pair. -/
def rejectAllChecker : Checker := fun _ _ =>
  [{ message := "rejected", path := "", validator := "always" }]

/-- A checker that reports a violation exactly against the schema marked
`marker1` (schema S1) and accepts every document against any other
schema. -/
def markerChecker : Checker := fun _ schema =>
  match schema with
  | .obj (("marker1", _) :: _) =>
      [{ message := "does not conform to schema S1", path := "",
         validator := "type" }]
  | _ => []

/-- A store holding one document (id "D") at version 1. -/
def c1Store : Store :=
  { docs := [("D", Json.obj [("title", Json.str "T")])],
    metas := [("D", { doc_id := "D", version := 1, created_at := 0,
                      updated_at := 0 })] }

/-- Metadata of document "D" at version 1 (concrete run input). -/
def c4Meta0 : DocumentMetadata :=
  { doc_id := "D", version := 1, created_at := 0, updated_at := 0 }

/-- Store contents after the concrete update run. -/
def c4UpdatedStore : Store :=
  { docs := [("D", Json.obj [("title", Json.num 42)])],
    metas := [("D", { doc_id := "D", version := 2, created_at := 0,
                      updated_at := 7 })] }

/-- Metadata of the freshly created document "G". -/
def c4Meta9 : DocumentMetadata :=
  { doc_id := "G", version := 1, created_at := 9, updated_at := 9 }

/-- Service state before the concrete create run: empty storage, the empty
schema "S" already in the document-service cache. -/
def c4CreateInState : SvcState :=
  { store := emptyStore, dcache := [("S", Json.obj [])], scache := [] }

/-- Service state after the concrete create run. -/
def c4CreateOutState : SvcState :=
  { store := { docs := [("G", Json.obj [])], metas := [("G", c4Meta9)] },
    dcache := [("S", Json.obj [])], scache := [] }

/-! ### Theorems -/

/-! ### Helper lemmas for the pointer engine -/
theorem getKey_setKey_self {α : Type} (fs : List (String × α)) (k : String) (v : α) :
    getKey (setKey fs k v) k = some v := by
  induction fs with
  | nil => simp [setKey, getKey]
  | cons hd tl ih =>
      obtain ⟨k0, w⟩ := hd
      by_cases h : k0 = k
      · simp [setKey, h, getKey]
      · simp [setKey, h, getKey, ih]

theorem listSet_length (xs : List Json) (i : Nat) (v : Json) :
    (listSet xs i v).length = xs.length := by
  induction xs generalizing i with
  | nil => simp [listSet]
  | cons x tl ih =>
      cases i with
      | zero => simp [listSet]
      | succ n => simp [listSet, ih]

theorem listAt_listSet_self (xs : List Json) (i : Nat) (v : Json)
    (h : i < xs.length) : listAt (listSet xs i v) i = v := by
  induction xs generalizing i with
  | nil => simp at h
  | cons x tl ih =>
      cases i with
      | zero => simp [listSet, listAt]
      | succ n =>
          simp [listSet, listAt]
          exact ih n (by simpa using h)

theorem arrIndex_lt (t : String) (len : Nat) (i : Nat)
    (h : arrIndex t len = some i) : i < len := by
  unfold arrIndex at h
  cases hp : pyInt t with
  | none => simp only [hp] at h; exact absurd h (by simp)
  | some j =>
      simp only [hp] at h
      by_cases hb : 0 ≤ j ∧ j < (len : Int)
      · rw [if_pos hb] at h
        have hji : j.toNat = i := by simpa using h
        omega
      · rw [if_neg hb] at h
        exact absurd h (by simp)

theorem chSplit_ne_nil (sep : Char) (l : List Char) : chSplit sep l ≠ [] := by
  cases l with
  | nil => simp [chSplit]
  | cons c cs =>
      rw [chSplit]
      by_cases h : c = sep
      · simp [h]
      · rw [if_neg h]
        cases hs : chSplit sep cs
        all_goals simp

theorem parse_pointer_ne_nil (pointer : String) (parts : List String)
    (hne : pointer ≠ "") (h : parse_pointer pointer = .ok parts) : parts ≠ [] := by
  unfold parse_pointer at h
  rw [if_neg hne] at h
  cases hd : pointer.data with
  | nil => rw [hd] at h; exact absurd h (by simp)
  | cons c cs =>
      rw [hd] at h
      by_cases hc : c = '/'
      · subst hc
        obtain ⟨rfl⟩ : (chSplit '/' cs).map (fun t => String.mk (unescapeToken t)) = parts := by
          simpa using h
        simpa using chSplit_ne_nil '/' cs
      · cases c
        simp_all

/-- The core of the set/resolve round trip, token by token: if a nonempty
token path resolves in `d`, then `setGo` succeeds on it and resolving the
same path in the result yields the written value. -/
theorem setGo_roundtrip (ptr : String) (v : Json) :
    ∀ (ts : List String) (d w : Json), ts ≠ [] → resolveGo ptr ts d = .ok w →
    ∃ d2, setGo ptr v ts d = .ok d2 ∧ resolveGo ptr ts d2 = .ok v := by
  intro ts
  induction ts with
  | nil => intro d w h; exact absurd rfl h
  | cons t ts ih =>
      intro d w _ hres
      cases d with
      | arr xs =>
          cases harr : arrIndex t xs.length with
          | none => simp only [resolveGo, harr] at hres; exact absurd hres (by simp)
          | some i =>
              simp only [resolveGo, harr] at hres
              have hlt : i < xs.length := arrIndex_lt t xs.length i harr
              cases ts with
              | nil =>
                  refine ⟨.arr (listSet xs i v), ?_, ?_⟩
                  · simp only [setGo, harr]
                  · simp only [resolveGo, listSet_length, harr,
                      listAt_listSet_self xs i v hlt]
              | cons u us =>
                  obtain ⟨c, hset, hres2⟩ := ih (listAt xs i) w (by simp) hres
                  refine ⟨.arr (listSet xs i c), ?_, ?_⟩
                  · simp only [setGo, harr, hset]; rfl
                  · simp only [resolveGo, listSet_length, harr,
                      listAt_listSet_self xs i c hlt]
                    exact hres2
      | obj fs =>
          cases hk : getKey fs t with
          | none => simp only [resolveGo, hk] at hres; exact absurd hres (by simp)
          | some u =>
              simp only [resolveGo, hk] at hres
              cases ts with
              | nil =>
                  refine ⟨.obj (setKey fs t v), ?_, ?_⟩
                  · simp only [setGo]
                  · simp only [resolveGo, getKey_setKey_self]
              | cons a as =>
                  obtain ⟨c, hset, hres2⟩ := ih u w (by simp) hres
                  refine ⟨.obj (setKey fs t c), ?_, ?_⟩
                  · simp only [setGo, hk, hset]; rfl
                  · simp only [resolveGo, getKey_setKey_self]
                    exact hres2
      | null => simp only [resolveGo] at hres; exact absurd hres (by simp)
      | bool b => simp only [resolveGo] at hres; exact absurd hres (by simp)
      | num n => simp only [resolveGo] at hres; exact absurd hres (by simp)
      | str s => simp only [resolveGo] at hres; exact absurd hres (by simp)

/-! ### Lemmas about the "not found" message dispatch -/
theorem chStarts_append (pat l rest : List Char)
    (h : chStarts pat l = true) : chStarts pat (l ++ rest) = true := by
  induction pat generalizing l with
  | nil => simp [chStarts]
  | cons a as ih =>
      cases l with
      | nil => simp [chStarts] at h
      | cons b bs =>
          simp only [chStarts, Bool.and_eq_true, beq_iff_eq] at h
          simp only [List.cons_append, chStarts, Bool.and_eq_true, beq_iff_eq]
          exact ⟨h.1, ih bs (h.2)⟩

theorem chHasSub_append_left (pat l rest : List Char)
    (h : chHasSub pat l = true) : chHasSub pat (l ++ rest) = true := by
  induction l with
  | nil =>
      have hpat : pat = [] := by
        cases pat with
        | nil => rfl
        | cons a as => simp [chHasSub, chStarts] at h
      subst hpat
      cases rest with
      | nil => simp [chHasSub, chStarts]
      | cons c cs => simp [chHasSub, chStarts]
  | cons c cs ih =>
      simp only [chHasSub, Bool.or_eq_true] at h
      rcases h with h | h
      · simp only [List.cons_append, chHasSub, Bool.or_eq_true]
        exact Or.inl (chStarts_append pat (c :: cs) rest h)
      · simp only [List.cons_append, chHasSub, Bool.or_eq_true]
        exact Or.inr (ih h)

/-- The `DocumentNotFoundError` message always triggers the service's
`"not found" in str(e).lower()` dispatch, whatever the document id. -/
theorem hasNotFoundSub_docNotFound (docId : String) :
    hasNotFoundSub ("Document not found: " ++ docId) = true := by
  unfold hasNotFoundSub
  rw [String.data_append, List.map_append]
  have hpre : List.map chLower "Document not found: ".data
      = "document not found: ".data := by decide
  rw [hpre]
  exact chHasSub_append_left _ _ _ (by decide)

/-- An absent document id makes the service load prologue produce
`DocumentNotFoundError(doc_id)`. -/
theorem loadDocument_absent (docs : List (String × Json)) (docId : String)
    (h : getKey docs docId = none) :
    loadDocument docs docId = .error (.documentNotFound docId) := by
  unfold loadDocument readDocExc
  simp [h, hasNotFoundSub_docNotFound]

/-- A present document id makes the load prologue return the stored tree. -/
theorem loadDocument_present (docs : List (String × Json)) (docId : String)
    (doc : Json) (h : getKey docs docId = some doc) :
    loadDocument docs docId = .ok doc := by
  unfold loadDocument readDocExc
  simp [h]

/-! ### Claim C8: pointer parsing -/
/-- C8: `parse_pointer ""` is the empty token sequence; a nonempty pointer
without a leading slash fails with the MalformedPointer error; otherwise the
pointer is split on `/` and each token unescaped by `~1` to `/` then `~0`
to `~`; in particular `"/a/b"`, `"/a~1b"`, `"/a~0b"` parse to `["a","b"]`,
`["a/b"]`, `["a~b"]`, and the token `~01` unescapes to `~1`, not `/`. -/
theorem parse_pointer_spec :
    parse_pointer "" = .ok [] ∧
    (∀ p : String, p ≠ "" → (∀ cs : List Char, p.data ≠ '/' :: cs) →
      parse_pointer p = .error (.malformedPointer p)) ∧
    (∀ cs : List Char,
      parse_pointer (String.mk ('/' :: cs)) =
        .ok ((chSplit '/' cs).map fun t => String.mk (unescapeToken t))) ∧
    parse_pointer "/a/b" = .ok ["a", "b"] ∧
    parse_pointer "/a~1b" = .ok ["a/b"] ∧
    parse_pointer "/a~0b" = .ok ["a~b"] ∧
    parse_pointer "/a~01" = .ok ["a~1"] := by
  refine ⟨rfl, ?_, ?_, rfl, rfl, rfl, rfl⟩
  · intro p hne hns
    unfold parse_pointer
    rw [if_neg hne]
    cases hd : p.data with
    | nil => rfl
    | cons c cs =>
        have hc : c ≠ '/' := by
          intro h
          exact hns cs (by rw [hd, h])
        split
        all_goals first
          | rfl
          | (rename_i rest heq
             injection heq with h1 h2
             exact absurd h1 hc)
  · intro cs
    have hne : (String.mk ('/' :: cs)) ≠ "" := by
      intro h
      have hdata : ('/' :: cs : List Char) = [] := congrArg String.data h
      simp at hdata
    unfold parse_pointer
    rw [if_neg hne]
    rfl

/-- Witness for C8: the with-hypotheses clauses of `parse_pointer_spec`
evaluated at concrete pointers. -/
theorem parse_pointer_spec_witness :
    parse_pointer "abc" = .error (.malformedPointer "abc") ∧
    parse_pointer (String.mk ['/', 'a']) =
      .ok ((chSplit '/' ['a']).map fun t => String.mk (unescapeToken t)) :=
  ⟨parse_pointer_spec.2.1 "abc" (by decide)
      (by intro cs h; injection h with h1 h2; exact absurd h1 (by decide)),
    parse_pointer_spec.2.2.1 ['a']⟩

/-! ### Claim C3: set/resolve round trip -/
/-- C3 counterexample: the empty pointer resolves in every document (to the
document itself), yet `set_pointer` rejects it with the root-mutation
`ValueError` instead of satisfying the round-trip equation. -/
theorem set_root_pointer_rejected :
    resolve_pointer (Json.obj []) "" = .ok (Json.obj []) ∧
    set_pointer (Json.obj []) "" (Json.num 42) =
      .error (.invalidOperation "Cannot set root pointer") := ⟨rfl, rfl⟩

/-- C3 (amended): for every document `D`, every nonempty pointer `P` that
resolves in `D` and every value `V`, `set` succeeds and resolving `P` in
its result yields `V`; `set` builds a new tree, leaving `D` untouched
(immutability is intrinsic to the functional embedding). -/
theorem resolve_set_roundtrip (D : Json) (P : String) (V W : Json)
    (hP : P ≠ "") (hres : resolve_pointer D P = .ok W) :
    ∃ D2, set_pointer D P V = .ok D2 ∧ resolve_pointer D2 P = .ok V := by
  unfold resolve_pointer at hres
  cases hp : parse_pointer P with
  | error e =>
      rw [hp] at hres
      exact Except.noConfusion (hres : (Except.error e : Except Err Json) = .ok W)
  | ok parts =>
      rw [hp] at hres
      have hgo : resolveGo P parts D = .ok W := hres
      have hne := parse_pointer_ne_nil P parts hP hp
      obtain ⟨d2, hset, hres2⟩ := setGo_roundtrip P V parts D W hne hgo
      refine ⟨d2, ?_, ?_⟩
      · have hsp : set_pointer D P V =
            if parts = [] then .error (.invalidOperation "Cannot set root pointer")
            else setGo P V parts D := by
          unfold set_pointer
          rw [hp]
          rfl
        rw [hsp, if_neg hne]
        exact hset
      · have hrp : resolve_pointer d2 P = resolveGo P parts d2 := by
          unfold resolve_pointer
          rw [hp]
          rfl
        rw [hrp]
        exact hres2

/-- Witness for C3: the round trip at a concrete document and pointer. -/
theorem resolve_set_roundtrip_witness :
    ∃ D2, set_pointer (Json.obj [("a", Json.num 1)]) "/a" (Json.num 5) = .ok D2 ∧
      resolve_pointer D2 "/a" = .ok (Json.num 5) :=
  resolve_set_roundtrip (Json.obj [("a", Json.num 1)]) "/a" (Json.num 5)
    (Json.num 1) (by decide) rfl

/-! ### Claim C10: the "/" special case in read_node -/
/-- C10: `read_node` returns the whole document (with its current version)
for the pointer string "/" by special-casing it before the pointer engine is
consulted, and likewise for the empty pointer ""; yet the engine itself
parses "/" as one empty-string token, so `resolve_pointer` with "/" fails
with PathNotFound on any object document without an empty-string key. -/
theorem read_node_root_special_case (st : Store) (docId : String)
    (fields : List (String × Json)) (md : DocumentMetadata)
    (hdoc : getKey st.docs docId = some (Json.obj fields))
    (hmd : getKey st.metas docId = some md)
    (hnokey : getKey fields "" = none) :
    read_node st docId "/" = .ok (Json.obj fields, md.version) ∧
    read_node st docId "" = .ok (Json.obj fields, md.version) ∧
    resolve_pointer (Json.obj fields) "/" = .error (.pathNotFound "/") := by
  refine ⟨?_, ?_, ?_⟩
  · unfold read_node
    simp [loadDocument_present st.docs docId (Json.obj fields) hdoc, hmd]
  · unfold read_node
    simp only [loadDocument_present st.docs docId (Json.obj fields) hdoc, hmd]
    rw [if_neg (by decide : ("" : String) ≠ "/")]
    rfl
  · have hstep : resolve_pointer (Json.obj fields) "/" =
        resolveGo "/" [""] (Json.obj fields) := rfl
    rw [hstep]
    simp only [resolveGo, hnokey]

/-- Witness for C10 at a concrete store. -/
theorem read_node_root_special_case_witness :
    read_node { docs := [("D", Json.obj [("title", Json.str "T")])],
                metas := [("D", { doc_id := "D", version := 1,
                                  created_at := 0, updated_at := 0 })] }
        "D" "/" = .ok (Json.obj [("title", Json.str "T")], 1) ∧
    resolve_pointer (Json.obj [("title", Json.str "T")]) "/" =
      .error (.pathNotFound "/") := by
  have h := read_node_root_special_case
    { docs := [("D", Json.obj [("title", Json.str "T")])],
      metas := [("D", { doc_id := "D", version := 1,
                        created_at := 0, updated_at := 0 })] }
    "D" [("title", Json.str "T")]
    { doc_id := "D", version := 1, created_at := 0, updated_at := 0 }
    rfl rfl rfl
  exact ⟨h.1, h.2.2⟩

/-- C2 (amended): a version mismatch on update/createNode, and on deleteNode
for non-root pointers, fails with VersionConflict carrying the expected and
actual versions and performs no write (the store is returned untouched);
deleteNode with the root pointer instead fails with InvalidOperation before
the version is even compared, likewise without writing. -/
theorem version_conflict_no_write (checker : Checker) (cache : List (String × Json))
    (st : Store) (docId path : String) (value doc : Json) (md : DocumentMetadata)
    (expectedVersion : Int) (now : Nat)
    (hdoc : getKey st.docs docId = some doc)
    (hmd : getKey st.metas docId = some md)
    (hv : md.version ≠ expectedVersion) :
    update_node checker cache st docId path value expectedVersion now =
      (.error (.versionConflict expectedVersion md.version), st) ∧
    create_node checker cache st docId path value expectedVersion now =
      (.error (.versionConflict expectedVersion md.version), st) ∧
    (path ≠ "/" → delete_node checker cache st docId path expectedVersion now =
      (.error (.versionConflict expectedVersion md.version), st)) ∧
    delete_node checker cache st docId "/" expectedVersion now =
      (.error (.invalidOperation "Cannot delete root node"), st) := by
  refine ⟨?_, ?_, ?_, ?_⟩
  · unfold update_node
    simp [loadDocument_present st.docs docId doc hdoc, hmd, hv]
  · unfold create_node
    simp [loadDocument_present st.docs docId doc hdoc, hmd, hv]
  · intro hroot
    unfold delete_node
    simp [hroot, loadDocument_present st.docs docId doc hdoc, hmd, hv]
  · unfold delete_node
    simp

/-- Witness for C2: a stale expected version at a concrete store. -/
theorem version_conflict_no_write_witness :
    update_node okChecker [] demoStore "D" "/title" (Json.str "New") 1 7 =
      (.error (.versionConflict 1 2), demoStore) :=
  (version_conflict_no_write okChecker [] demoStore "D" "/title" (Json.str "New")
      (Json.obj [("title", Json.str "T")])
      { doc_id := "D", version := 2, created_at := 0, updated_at := 0 }
      1 7 rfl rfl (by decide)).1

/-- C2 counterexample: on an existing document stored at version 2, calling
deleteNode with the root pointer and stale expected version 1 fails with
InvalidOperation, not with the VersionConflict the claim requires for every
mutating call whose expected version differs from the stored one. -/
theorem delete_root_skips_version_check :
    (getKey demoStore.metas "D").map DocumentMetadata.version = some 2 ∧
    delete_node okChecker [] demoStore "D" "/" 1 0 =
      (.error (.invalidOperation "Cannot delete root node"), demoStore) := ⟨rfl, rfl⟩

/-- C5 (amended): with the target document id absent from document storage,
read/update/createNode fail with DocumentNotFound before any other check,
and so does deleteNode for every non-root pointer; but deleteNode validates
the root pointer before consulting storage, so root deletion on an absent
document fails with InvalidOperation instead. -/
theorem absent_document_not_found (checker : Checker) (cache : List (String × Json))
    (st : Store) (docId path : String) (value : Json) (expectedVersion : Int)
    (now : Nat) (habs : getKey st.docs docId = none) :
    read_node st docId path = .error (.documentNotFound docId) ∧
    update_node checker cache st docId path value expectedVersion now =
      (.error (.documentNotFound docId), st) ∧
    create_node checker cache st docId path value expectedVersion now =
      (.error (.documentNotFound docId), st) ∧
    (path ≠ "/" → delete_node checker cache st docId path expectedVersion now =
      (.error (.documentNotFound docId), st)) ∧
    delete_node checker cache st docId "/" expectedVersion now =
      (.error (.invalidOperation "Cannot delete root node"), st) := by
  refine ⟨?_, ?_, ?_, ?_, ?_⟩
  · unfold read_node
    simp [loadDocument_absent st.docs docId habs]
  · unfold update_node
    simp [loadDocument_absent st.docs docId habs]
  · unfold create_node
    simp [loadDocument_absent st.docs docId habs]
  · intro hroot
    unfold delete_node
    simp [hroot, loadDocument_absent st.docs docId habs]
  · unfold delete_node
    simp

/-- Witness for C5: concrete absent-document calls. -/
theorem absent_document_not_found_witness :
    read_node emptyStore "X" "/title" = .error (.documentNotFound "X") ∧
    delete_node okChecker [] emptyStore "X" "/title" 1 0 =
      (.error (.documentNotFound "X"), emptyStore) :=
  ⟨(absent_document_not_found okChecker [] emptyStore "X" "/title" Json.null 1 0
      rfl).1,
    (absent_document_not_found okChecker [] emptyStore "X" "/title" Json.null 1 0
      rfl).2.2.2.1 (by decide)⟩

/-- C5 counterexample: on an absent document, deleteNode with the root
pointer fails with InvalidOperation — not with the DocumentNotFound the
claim requires the absence check to produce first. -/
theorem delete_root_absent_invalid_operation :
    getKey emptyStore.docs "D" = none ∧
    delete_node okChecker [] emptyStore "D" "/" 1 0 =
      (.error (.invalidOperation "Cannot delete root node"), emptyStore) := ⟨rfl, rfl⟩

/-- `Except.bind` on a failure short-circuits. -/
theorem error_bind {E A B : Type} (e : E) (f : A → Except E B) :
    ((Except.error e : Except E A) >>= f) = .error e := rfl

/-- `Except.bind` on a success applies the continuation. -/
theorem ok_bind {E A B : Type} (a : A) (f : A → Except E B) :
    ((Except.ok a : Except E A) >>= f) = f a := rfl

/-! ### Claim C7: cross-schema cycle detection -/
/-- C7: every cross-schema cycle shape — a schema referencing itself by its
own identifier, A to B to A, and A to B to C to A — fails `load_schema`
with a ValidationFailed whose violation list has exactly one entry naming
the re-entered schema identifier, at every sufficient fuel. -/
theorem cross_schema_cycle_detected (a b c : String) (fuel : Nat)
    (hla : isLocalRef a = false) (hlb : isLocalRef b = false)
    (hlc : isLocalRef c = false)
    (hab : a ≠ b) (hac : a ≠ c) (hbc : b ≠ c) :
    load_schema [(a, Json.obj [("$ref", Json.str a)])] [] (fuel + 1) a =
      (.error (.validationFailed [circularViolation a]), []) ∧
    load_schema [(a, Json.obj [("$ref", Json.str b)]),
        (b, Json.obj [("$ref", Json.str a)])] [] (fuel + 2) a =
      (.error (.validationFailed [circularViolation a]), []) ∧
    load_schema [(a, Json.obj [("$ref", Json.str b)]),
        (b, Json.obj [("$ref", Json.str c)]),
        (c, Json.obj [("$ref", Json.str a)])] [] (fuel + 3) a =
      (.error (.validationFailed [circularViolation a]), []) := by
  refine ⟨?_, ?_, ?_⟩
  · unfold load_schema resolveRefs
    simp [getKey, resolveRefsRec, hla]
  · unfold load_schema resolveRefs
    simp [getKey, resolveRefsRec, hla, hlb, hab, Ne.symm hab]
  · unfold load_schema resolveRefs
    simp [getKey, resolveRefsRec, hla, hlb, hlc, hab, hac, hbc,
      Ne.symm hab, Ne.symm hac, Ne.symm hbc]

/-- Witness for C7: the three-schema cycle at concrete identifiers. -/
theorem cross_schema_cycle_detected_witness :
    load_schema [("A", Json.obj [("$ref", Json.str "B")]),
        ("B", Json.obj [("$ref", Json.str "C")]),
        ("C", Json.obj [("$ref", Json.str "A")])] [] 3 "A" =
      (.error (.validationFailed [circularViolation "A"]), []) :=
  (cross_schema_cycle_detected "A" "B" "C" 0 (by decide) (by decide) (by decide)
    (by decide) (by decide) (by decide)).2.2

/-- Resolving the local self-reference consumes fuel without progress. -/
theorem localCycle_refNode_diverges (visited : List String) :
    ∀ fuel : Nat,
      resolveRefsRec localCycleStore fuel
        (Json.obj [("$ref", Json.str "#/definitions/x")]) "A" visited =
      .error .fuelExhausted := by
  intro fuel
  induction fuel with
  | zero => rfl
  | succ f ih =>
      simp only [resolveRefsRec, getKey, localCycleStore, localCycleSchema]
      simp only [reduceIte]
      exact ih

/-- C6 counterexample: on the schema whose only cycle is formed of local
`#/` references, `load_schema` exhausts every fuel — the source recursion
never returns (no CircularReference error is ever produced). -/
theorem local_ref_cycle_diverges : loadNeverReturns localCycleStore "A" := by
  intro fuel
  match fuel with
  | 0 => rfl
  | 1 => rfl
  | (f + 2) =>
      have hx : resolveRefsRec localCycleStore (f + 1)
          (Json.obj [("x", Json.obj [("$ref", Json.str "#/definitions/x")])])
          "A" ["A"] = .error .fuelExhausted := by
        simp only [resolveRefsRec, getKey, resolveEachWith]
        simp [localCycle_refNode_diverges ["A"] f, error_bind]
      have hy : resolveRefsRec localCycleStore (f + 2) localCycleSchema "A" ["A"] =
          .error .fuelExhausted := by
        show resolveRefsRec localCycleStore (f + 1 + 1) localCycleSchema "A" ["A"] =
          .error .fuelExhausted
        simp only [localCycleSchema, resolveRefsRec, getKey, resolveEachWith]
        simp [localCycle_refNode_diverges ["A"] f, error_bind, ok_bind]
      unfold load_schema resolveRefs
      simp only [localCycleStore, localCycleSchema] at hy ⊢
      simp [getKey, hy]

theorem noLocalKVs_mem {kvs : List (String × Json)} (h : noLocalKVs kvs = true) :
    ∀ kv ∈ kvs, noLocalB kv.2 = true := by
  induction kvs with
  | nil => intro kv hkv; simp at hkv
  | cons hd rest ih =>
      obtain ⟨k, v⟩ := hd
      rw [noLocalKVs] at h
      intro kv hkv
      rcases List.mem_cons.mp hkv with rfl | h2
      · exact (Bool.and_eq_true ..).mp h |>.1
      · exact ih ((Bool.and_eq_true ..).mp h |>.2) kv h2

theorem noLocalArr_mem {xs : List Json} (h : noLocalArr xs = true) :
    ∀ x ∈ xs, noLocalB x = true := by
  induction xs with
  | nil => intro x hx; simp at hx
  | cons y rest ih =>
      rw [noLocalArr] at h
      intro x hx
      rcases List.mem_cons.mp hx with rfl | h2
      · exact (Bool.and_eq_true ..).mp h |>.1
      · exact ih ((Bool.and_eq_true ..).mp h |>.2) x h2

theorem getKey_mem {α : Type} (l : List (String × α)) (k : String) (v : α)
    (h : getKey l k = some v) : (k, v) ∈ l := by
  induction l with
  | nil => simp [getKey] at h
  | cons hd rest ih =>
      obtain ⟨k0, w⟩ := hd
      rw [getKey] at h
      by_cases hk : k0 = k
      · rw [if_pos hk] at h
        obtain rfl : w = v := by simpa using h
        subst hk
        exact List.mem_cons_self ..
      · rw [if_neg hk] at h
        exact List.mem_cons_of_mem _ (ih h)

theorem sizeOf_val_lt_obj {k : String} {v : Json} {kvs : List (String × Json)}
    (h : (k, v) ∈ kvs) : sizeOf v < sizeOf (Json.obj kvs) := by
  have h1 := List.sizeOf_lt_of_mem h
  have h2 : sizeOf (k, v) = 1 + sizeOf k + sizeOf v := rfl
  have h3 : sizeOf (Json.obj kvs) = 1 + sizeOf kvs := by simp
  omega

theorem sizeOf_item_lt_arr {x : Json} {xs : List Json} (h : x ∈ xs) :
    sizeOf x < sizeOf (Json.arr xs) := by
  have h1 := List.sizeOf_lt_of_mem h
  have h3 : sizeOf (Json.arr xs) = 1 + sizeOf xs := by simp
  omega

theorem filter_len_mono {p q : String → Bool}
    (h : ∀ x, q x = true → p x = true) :
    ∀ l : List String, (l.filter q).length ≤ (l.filter p).length := by
  intro l
  induction l with
  | nil => simp
  | cons a rest ih =>
      by_cases hq : q a = true
      · have hp := h a hq
        simp only [List.filter_cons, hq, hp, if_true, List.length_cons]
        omega
      · rw [List.filter_cons, if_neg (by simpa using hq)]
        cases hp : p a
        · rw [List.filter_cons, if_neg (by simp [hp])]
          exact ih
        · rw [List.filter_cons, if_pos (by simp [hp]), List.length_cons]
          omega

theorem filter_unvisited_cons_lt (ids : List String) (ref : String)
    (visited : List String) (hmem : ref ∈ ids) (hnv : ref ∉ visited) :
    (ids.filter (fun i => decide (i ∉ ref :: visited))).length <
    (ids.filter (fun i => decide (i ∉ visited))).length := by
  have hmono : ∀ x, (fun i => decide (i ∉ ref :: visited)) x = true →
      (fun i => decide (i ∉ visited)) x = true := by
    intro x hx
    simp only [decide_eq_true_eq, List.mem_cons, not_or] at hx ⊢
    exact hx.2
  induction ids with
  | nil => simp at hmem
  | cons i rest ih =>
      by_cases hi : i = ref
      · subst hi
        rw [List.filter_cons, if_neg (by simp), List.filter_cons,
          if_pos (by simpa using hnv), List.length_cons]
        have := filter_len_mono hmono rest
        omega
      · have hsame : (decide (i ∉ ref :: visited)) = (decide (i ∉ visited)) := by
          simp [List.mem_cons, hi]
        have hrest : ref ∈ rest := by
          rcases List.mem_cons.mp hmem with h1 | h1
          · exact absurd h1.symm hi
          · exact h1
        rw [List.filter_cons, List.filter_cons, hsame]
        cases hiv : decide (i ∉ visited)
        · simpa using ih hrest
        · simp only [if_true, List.length_cons]
          have := ih hrest
          omega

theorem unvisited_decreases (store : List (String × Json)) (ref : String)
    (s : Json) (visited : List String)
    (href : getKey store ref = some s) (hnv : ref ∉ visited) :
    unvisitedCount store (ref :: visited) < unvisitedCount store visited := by
  have hmem : ref ∈ storeIds store := by
    have h1 := getKey_mem store ref s href
    exact List.mem_map_of_mem Prod.fst h1
  exact filter_unvisited_cons_lt (storeIds store) ref visited hmem hnv

/-! ### Fuel monotonicity of the resolver -/
theorem resolveArrWith_mono (f g : Json → Except Err Json)
    (hfg : ∀ v, f v ≠ .error .fuelExhausted → g v = f v) :
    ∀ xs, resolveArrWith f xs ≠ .error .fuelExhausted →
      resolveArrWith g xs = resolveArrWith f xs := by
  intro xs
  induction xs with
  | nil => intro h; rfl
  | cons x rest ih =>
      intro h
      cases hx : f x with
      | error e =>
          have hne : e ≠ .fuelExhausted := by
            intro he
            subst he
            exact h (by simp [resolveArrWith, hx, error_bind])
          have hgx : g x = f x := hfg x (by rw [hx]; simp [hne])
          simp [resolveArrWith, hx, hgx, error_bind]
      | ok x2 =>
          have hgx : g x = f x := hfg x (by simp [hx])
          have hrest : resolveArrWith f rest ≠ .error .fuelExhausted := by
            intro hr
            exact h (by simp [resolveArrWith, hx, hr, error_bind, ok_bind])
          simp [resolveArrWith, hx, hgx, ok_bind, ih hrest]

theorem resolveEachWith_mono (f g : Json → Except Err Json)
    (hfg : ∀ v, f v ≠ .error .fuelExhausted → g v = f v) :
    ∀ kvs, resolveEachWith f kvs ≠ .error .fuelExhausted →
      resolveEachWith g kvs = resolveEachWith f kvs := by
  intro kvs
  induction kvs with
  | nil => intro h; rfl
  | cons kv rest ih =>
      obtain ⟨k, v⟩ := kv
      intro h
      cases hv : f v with
      | error e =>
          have hne : e ≠ .fuelExhausted := by
            intro he
            subst he
            exact h (by simp [resolveEachWith, hv, error_bind])
          have hgv : g v = f v := hfg v (by rw [hv]; simp [hne])
          simp [resolveEachWith, hv, hgv, error_bind]
      | ok v2 =>
          have hgv : g v = f v := hfg v (by simp [hv])
          have hrest : resolveEachWith f rest ≠ .error .fuelExhausted := by
            intro hr
            exact h (by simp [resolveEachWith, hv, hr, error_bind, ok_bind])
          simp [resolveEachWith, hv, hgv, ok_bind, ih hrest]

theorem resolveArrWith_no_fuelOut (f : Json → Except Err Json) :
    ∀ xs : List Json, (∀ x ∈ xs, f x ≠ .error .fuelExhausted) →
      resolveArrWith f xs ≠ .error .fuelExhausted := by
  intro xs
  induction xs with
  | nil => intro h; simp [resolveArrWith]
  | cons x rest ih =>
      intro h
      cases hx : f x with
      | error e =>
          have he : e ≠ .fuelExhausted := by
            intro hee
            subst hee
            exact (h x (by simp)) hx
          simp [resolveArrWith, hx, error_bind, he]
      | ok x2 =>
          have hrest := ih (fun y hy => h y (by simp [hy]))
          cases hr : resolveArrWith f rest with
          | error e2 =>
              have he2 : e2 ≠ .fuelExhausted := fun hh => hrest (by rw [hr, hh])
              simp [resolveArrWith, hx, hr, ok_bind, error_bind, he2]
          | ok rest2 => simp [resolveArrWith, hx, hr, ok_bind]

theorem resolveEachWith_no_fuelOut (f : Json → Except Err Json) :
    ∀ kvs : List (String × Json), (∀ kv ∈ kvs, f kv.2 ≠ .error .fuelExhausted) →
      resolveEachWith f kvs ≠ .error .fuelExhausted := by
  intro kvs
  induction kvs with
  | nil => intro h; simp [resolveEachWith]
  | cons kv rest ih =>
      obtain ⟨k, v⟩ := kv
      intro h
      cases hv : f v with
      | error e =>
          have he : e ≠ .fuelExhausted := by
            intro hee
            subst hee
            exact (h (k, v) (by simp)) hv
          simp [resolveEachWith, hv, error_bind, he]
      | ok v2 =>
          have hrest := ih (fun y hy => h y (by simp [hy]))
          cases hr : resolveEachWith f rest with
          | error e2 =>
              have he2 : e2 ≠ .fuelExhausted := fun hh => hrest (by rw [hr, hh])
              simp [resolveEachWith, hv, hr, ok_bind, error_bind, he2]
          | ok rest2 => simp [resolveEachWith, hv, hr, ok_bind]

theorem bind_ne_fuelOut {A B : Type} (x : Except Err A) (g : A → Except Err B)
    (hx : x ≠ .error .fuelExhausted) (hg : ∀ a, g a ≠ .error .fuelExhausted) :
    (x >>= g) ≠ .error .fuelExhausted := by
  cases x with
  | error e =>
      have : e ≠ .fuelExhausted := fun hh => hx (by rw [hh])
      simp [error_bind, this]
  | ok a => simpa [ok_bind] using hg a

/-- More fuel never changes an outcome that did not run out of fuel. -/
theorem resolveRefsRec_mono (store : List (String × Json)) :
    ∀ (f : Nat) (j : Json) (baseId : String) (visited : List String),
      resolveRefsRec store f j baseId visited ≠ .error .fuelExhausted →
      ∀ g, f ≤ g →
        resolveRefsRec store g j baseId visited =
          resolveRefsRec store f j baseId visited := by
  intro f
  induction f with
  | zero =>
      intro j b vis h
      exact absurd rfl h
  | succ f ih =>
      intro j b vis h g hg
      obtain ⟨g2, rfl⟩ : ∃ g2, g = g2 + 1 := ⟨g - 1, by omega⟩
      have hfg : f ≤ g2 := by omega
      cases j with
      | null => rfl
      | bool bb => rfl
      | num n => rfl
      | str ss => rfl
      | arr xs =>
          have harr : resolveArrWith (fun x => resolveRefsRec store g2 x b vis) xs =
              resolveArrWith (fun x => resolveRefsRec store f x b vis) xs := by
            apply resolveArrWith_mono
            · intro v hv
              exact ih v b vis hv g2 hfg
            · intro hbad
              exact h (by simp [resolveRefsRec, hbad, error_bind])
          simp only [resolveRefsRec, harr]
      | obj kvs =>
          cases href : getKey kvs "$ref" with
          | some v =>
              cases v with
              | str ref =>
                  by_cases hl : isLocalRef ref = true
                  · cases hbase : getKey store b with
                    | none => simp [resolveRefsRec, href, hl, hbase]
                    | some baseSchema =>
                        cases hnav : navigatePath baseSchema
                            ((chSplit '/' (ref.data.drop 2)).map String.mk) with
                        | error e => simp [resolveRefsRec, href, hl, hbase, hnav]
                        | ok resolved =>
                            have hne : resolveRefsRec store f resolved b vis ≠
                                .error .fuelExhausted := by
                              intro hbad
                              exact h (by
                                simp [resolveRefsRec, href, hl, hbase, hnav, hbad])
                            simp only [resolveRefsRec, href, hl, if_true, hbase,
                              hnav]
                            exact ih resolved b vis hne g2 hfg
                  · by_cases hvis : ref ∈ vis
                    · simp [resolveRefsRec, href, hl, hvis]
                    · cases hstore : getKey store ref with
                      | none => simp [resolveRefsRec, href, hl, hvis, hstore]
                      | some s =>
                          have hne : resolveRefsRec store f s ref (ref :: vis) ≠
                              .error .fuelExhausted := by
                            intro hbad
                            exact h (by
                              simp [resolveRefsRec, href, hl, hvis, hstore, hbad])
                          simp only [resolveRefsRec, href] at h ⊢
                          simp only [Bool.not_eq_true] at hl
                          simp only [hl, Bool.false_eq_true, if_false, hvis,
                            if_false, hstore]
                          exact ih s ref (ref :: vis) hne g2 hfg
              | null => simp [resolveRefsRec, href]
              | bool b2 => simp [resolveRefsRec, href]
              | num n2 => simp [resolveRefsRec, href]
              | arr a2 => simp [resolveRefsRec, href]
              | obj o2 => simp [resolveRefsRec, href]
          | none =>
              have heach : resolveEachWith (fun x => resolveRefsRec store g2 x b vis) kvs =
                  resolveEachWith (fun x => resolveRefsRec store f x b vis) kvs := by
                apply resolveEachWith_mono
                · intro v hv
                  exact ih v b vis hv g2 hfg
                · intro hbad
                  exact h (by simp [resolveRefsRec, href, hbad, error_bind])
              simp only [resolveRefsRec, href, heach]

/-! ### Termination of resolution on local-reference-free schema graphs -/
theorem exists_uniform_fuel (store : List (String × Json)) (baseId : String)
    (visited : List String) (vs : List Json)
    (h : ∀ v ∈ vs, ∃ f, resolveRefsRec store f v baseId visited ≠ .error .fuelExhausted) :
    ∃ F, ∀ v ∈ vs, resolveRefsRec store F v baseId visited ≠ .error .fuelExhausted := by
  induction vs with
  | nil => exact ⟨0, by simp⟩
  | cons x rest ih =>
      obtain ⟨f1, hf1⟩ := h x (by simp)
      obtain ⟨F, hF⟩ := ih (fun v hv => h v (by simp [hv]))
      refine ⟨max f1 F, ?_⟩
      intro v hv
      rcases List.mem_cons.mp hv with rfl | hv2
      · rw [resolveRefsRec_mono store f1 v baseId visited hf1 (max f1 F)
          (Nat.le_max_left f1 F)]
        exact hf1
      · rw [resolveRefsRec_mono store F v baseId visited (hF v hv2) (max f1 F)
          (Nat.le_max_right f1 F)]
        exact hF v hv2

/-- Core termination bound: when neither the store nor the current node
contains a local reference, some fuel suffices.  The measure is
`unvisitedCount * (1 + sizeOf store) + sizeOf j`: a cross-schema step
shrinks the unvisited count and restarts at a schema no bigger than the
store; a structural step keeps the count and shrinks the node. -/
theorem resolveRefsRec_terminates_aux (store : List (String × Json))
    (hstore : ∀ p ∈ store, noLocalB p.2 = true) :
    ∀ (M : Nat) (j : Json) (baseId : String) (visited : List String),
      unvisitedCount store visited * (1 + sizeOf store) + sizeOf j ≤ M →
      noLocalB j = true →
      ∃ f, resolveRefsRec store f j baseId visited ≠ .error .fuelExhausted := by
  intro M
  induction M using Nat.strong_induction_on with
  | _ M ihM =>
  intro j baseId visited hM hno
  cases j with
  | null => exact ⟨1, by simp [resolveRefsRec]⟩
  | bool bb => exact ⟨1, by simp [resolveRefsRec]⟩
  | num nn => exact ⟨1, by simp [resolveRefsRec]⟩
  | str ss => exact ⟨1, by simp [resolveRefsRec]⟩
  | arr xs =>
      have hchild : ∀ x ∈ xs,
          ∃ f, resolveRefsRec store f x baseId visited ≠ .error .fuelExhausted := by
        intro x hx
        have hsz : sizeOf x < sizeOf (Json.arr xs) := sizeOf_item_lt_arr hx
        have hnx : noLocalB x = true :=
          noLocalArr_mem (by simpa [noLocalB] using hno) x hx
        exact ihM (unvisitedCount store visited * (1 + sizeOf store) + sizeOf x)
          (by omega) x baseId visited (le_refl _) hnx
      obtain ⟨F, hF⟩ := exists_uniform_fuel store baseId visited xs hchild
      refine ⟨F + 1, ?_⟩
      have harr := resolveArrWith_no_fuelOut
        (fun x => resolveRefsRec store F x baseId visited) xs hF
      simp only [resolveRefsRec]
      exact bind_ne_fuelOut _ _ harr (fun a => by simp)
  | obj kvs =>
      cases href : getKey kvs "$ref" with
      | some v =>
          cases v with
          | str ref =>
              have hl : isLocalRef ref = false := by
                have h2 := hno
                simp [noLocalB, href] at h2
                exact h2.1
              by_cases hvis : ref ∈ visited
              · exact ⟨1, by simp [resolveRefsRec, href, hl, hvis]⟩
              · cases hsto : getKey store ref with
                | none => exact ⟨1, by simp [resolveRefsRec, href, hl, hvis, hsto]⟩
                | some sch =>
                    have hnos : noLocalB sch = true :=
                      hstore (ref, sch) (getKey_mem store ref sch hsto)
                    have hdec := unvisited_decreases store ref sch visited hsto hvis
                    have hsch : sizeOf sch < sizeOf store := by
                      have h1 := List.sizeOf_lt_of_mem (getKey_mem store ref sch hsto)
                      have h2 : sizeOf (ref, sch) = 1 + sizeOf ref + sizeOf sch := rfl
                      omega
                    have hlt : unvisitedCount store (ref :: visited) *
                        (1 + sizeOf store) + sizeOf sch < M := by
                      have hstep1 : unvisitedCount store (ref :: visited) *
                          (1 + sizeOf store) + sizeOf sch <
                          (unvisitedCount store (ref :: visited) + 1) *
                          (1 + sizeOf store) := by
                        have : (unvisitedCount store (ref :: visited) + 1) *
                            (1 + sizeOf store) =
                            unvisitedCount store (ref :: visited) *
                            (1 + sizeOf store) + (1 + sizeOf store) := by ring
                        omega
                      have hstep2 : (unvisitedCount store (ref :: visited) + 1) *
                          (1 + sizeOf store) ≤
                          unvisitedCount store visited * (1 + sizeOf store) :=
                        mul_le_mul_right' hdec (1 + sizeOf store)
                      omega
                    obtain ⟨f2, hf2⟩ := ihM
                      (unvisitedCount store (ref :: visited) * (1 + sizeOf store) +
                        sizeOf sch)
                      hlt sch ref (ref :: visited) (le_refl _) hnos
                    refine ⟨f2 + 1, ?_⟩
                    have hred : resolveRefsRec store (f2 + 1) (Json.obj kvs)
                        baseId visited =
                        resolveRefsRec store f2 sch ref (ref :: visited) := by
                      simp [resolveRefsRec, href, hl, hvis, hsto]
                    rw [hred]
                    exact hf2
          | null => exact ⟨1, by simp [resolveRefsRec, href]⟩
          | bool b2 => exact ⟨1, by simp [resolveRefsRec, href]⟩
          | num n2 => exact ⟨1, by simp [resolveRefsRec, href]⟩
          | arr a2 => exact ⟨1, by simp [resolveRefsRec, href]⟩
          | obj o2 => exact ⟨1, by simp [resolveRefsRec, href]⟩
      | none =>
          have hkv : noLocalKVs kvs = true := by
            simpa [noLocalB, href] using hno
          have hchild : ∀ kv ∈ kvs,
              ∃ f, resolveRefsRec store f kv.2 baseId visited ≠
                .error .fuelExhausted := by
            intro kv hkvmem
            have hsz : sizeOf kv.2 < sizeOf (Json.obj kvs) := by
              obtain ⟨k, v⟩ := kv
              exact sizeOf_val_lt_obj hkvmem
            have hnx : noLocalB kv.2 = true := noLocalKVs_mem hkv kv hkvmem
            exact ihM (unvisitedCount store visited * (1 + sizeOf store) +
              sizeOf kv.2) (by omega) kv.2 baseId visited (le_refl _) hnx
          have hchild2 : ∀ v ∈ kvs.map Prod.snd,
              ∃ f, resolveRefsRec store f v baseId visited ≠
                .error .fuelExhausted := by
            intro v hv
            obtain ⟨kv, hkvmem, rfl⟩ := List.mem_map.mp hv
            exact hchild kv hkvmem
          obtain ⟨F, hF⟩ := exists_uniform_fuel store baseId visited
            (kvs.map Prod.snd) hchild2
          refine ⟨F + 1, ?_⟩
          have heach := resolveEachWith_no_fuelOut
            (fun x => resolveRefsRec store F x baseId visited) kvs
            (fun kv hkvm => hF kv.2 (List.mem_map_of_mem Prod.snd hkvm))
          simp only [resolveRefsRec, href]
          exact bind_ne_fuelOut _ _ heach (fun a => by simp)

/-- C6 (amended): on every finite schema graph free of local `#/`
references, `load_schema` terminates — some fuel suffices, the outcome is
not fuel exhaustion (it is a fully resolved schema or a typed error), and
giving any larger fuel does not change the outcome.  (The claim's further
assertion that local-reference cycles also end in CircularReference is
refuted by `local_ref_cycle_diverges`: such a cycle makes resolution loop
forever.) -/
theorem schema_resolution_terminates (store : List (String × Json))
    (schemaId : String) (hstore : ∀ p ∈ store, noLocalB p.2 = true) :
    ∃ fuel : Nat,
      (load_schema store [] fuel schemaId).1 ≠ .error .fuelExhausted ∧
      ∀ g, fuel ≤ g →
        load_schema store [] g schemaId = load_schema store [] fuel schemaId := by
  cases hs : getKey store schemaId with
  | none =>
      refine ⟨0, ?_, ?_⟩
      · unfold load_schema
        simp [getKey, hs]
      · intro g hg
        unfold load_schema
        simp [getKey, hs]
  | some raw =>
      have hnoraw : noLocalB raw = true :=
        hstore (schemaId, raw) (getKey_mem store schemaId raw hs)
      obtain ⟨f, hf⟩ := resolveRefsRec_terminates_aux store hstore
        (unvisitedCount store [schemaId] * (1 + sizeOf store) + sizeOf raw)
        raw schemaId [schemaId] (le_refl _) hnoraw
      have hload : ∀ g, load_schema store [] g schemaId =
          match resolveRefsRec store g raw schemaId [schemaId] with
          | .error e => (.error e, [])
          | .ok resolved => (.ok resolved, setKey [] schemaId resolved) := by
        intro g
        unfold load_schema resolveRefs
        simp [getKey, hs]
      refine ⟨f, ?_, ?_⟩
      · rw [hload f]
        cases hr : resolveRefsRec store f raw schemaId [schemaId] with
        | error e =>
            have he : e ≠ .fuelExhausted := by
              intro hh
              exact hf (by rw [hr, hh])
            simp [he]
        | ok r => simp
      · intro g hg
        rw [hload g, hload f,
          resolveRefsRec_mono store f raw schemaId [schemaId] hf g hg]

/-- Witness for C6: a two-schema cross-reference chain without local
references resolves with some sufficient, stable fuel. -/
theorem schema_resolution_terminates_witness :
    ∃ fuel : Nat,
      (load_schema [("A", Json.obj [("$ref", Json.str "B")]),
          ("B", Json.obj [("type", Json.str "string")])] [] fuel "A").1 ≠
        .error .fuelExhausted ∧
      ∀ g, fuel ≤ g →
        load_schema [("A", Json.obj [("$ref", Json.str "B")]),
            ("B", Json.obj [("type", Json.str "string")])] [] g "A" =
        load_schema [("A", Json.obj [("$ref", Json.str "B")]),
            ("B", Json.obj [("type", Json.str "string")])] [] fuel "A" :=
  schema_resolution_terminates _ "A" (by
    intro p hp
    fin_cases hp
    · simp [noLocalB, noLocalKVs, getKey, isLocalRef]
    · simp [noLocalB, noLocalKVs, getKey, isLocalRef])

/-! ### Claim C9: custom id validation -/
/-- C9 counterexample: a 26-character id consisting only of digits is
alphanumeric and has no lowercase character, yet the format check rejects
it with InvalidId — Python `isupper()` is false for a string without any
cased character, digits included. -/
theorem digit_only_id_rejected :
    ("00000000000000000000000000" : String).length = 26 ∧
    pyIsAlnum "00000000000000000000000000" = true ∧
    pyIsUpper "00000000000000000000000000" = false ∧
    checkCustomId "00000000000000000000000000"
        (.error { msg := "Document not found: 00000000000000000000000000" }) =
      .error (.invalidId "00000000000000000000000000") :=
  ⟨by decide, by decide, by decide, rfl⟩

/-- C9 (amended): the format check accepts a custom id exactly when it has
26 characters, is alphanumeric, and is uppercase in Python's sense (at
least one letter and no lowercase — digit-only ids are rejected with
InvalidId); a well-formed id whose storage probe succeeds fails with
AlreadyExists; a probe failure whose lowercased message contains
"not found" counts as absent and the id is accepted; any other probe
failure propagates. -/
theorem custom_id_check_spec (docId : String) (probe : Except PyExc Json) :
    (¬(docId.length = 26 ∧ pyIsAlnum docId = true ∧ pyIsUpper docId = true) →
      checkCustomId docId probe = .error (.invalidId docId)) ∧
    (docId.length = 26 → pyIsAlnum docId = true → pyIsUpper docId = true →
      ((∀ doc, probe = .ok doc →
          checkCustomId docId probe = .error (.alreadyExists docId)) ∧
        (∀ e, probe = .error e → hasNotFoundSub e.msg = true →
          checkCustomId docId probe = .ok ()) ∧
        (∀ e, probe = .error e → hasNotFoundSub e.msg = false →
          checkCustomId docId probe = .error (.storageFailure e.msg)))) := by
  constructor
  · intro hbad
    unfold checkCustomId
    rw [if_pos hbad]
  · intro h1 h2 h3
    have hok : ¬¬(docId.length = 26 ∧ pyIsAlnum docId = true ∧
        pyIsUpper docId = true) := not_not_intro ⟨h1, h2, h3⟩
    refine ⟨?_, ?_, ?_⟩
    · intro doc hp
      unfold checkCustomId
      rw [if_neg hok, hp]
    · intro e hp hnf
      unfold checkCustomId
      rw [if_neg hok, hp]
      simp [hnf]
    · intro e hp hnf
      unfold checkCustomId
      rw [if_neg hok, hp]
      simp [hnf]

/-- Witness for C9: a well-formed id already present in storage. -/
theorem custom_id_check_spec_witness :
    checkCustomId "ABCDEFGHJKMNPQRSTVWXYZ0123" (.ok (Json.obj [])) =
      .error (.alreadyExists "ABCDEFGHJKMNPQRSTVWXYZ0123") :=
  ((custom_id_check_spec "ABCDEFGHJKMNPQRSTVWXYZ0123" (.ok (Json.obj []))).2
    (by decide) (by decide) (by decide)).1 (Json.obj []) rfl

/-- C1 (code evidence): the mutation path does not validate against the
document's own creation schema.  First: with the service's schema cache
empty — a freshly constructed service over existing storage — update_node
persists the mutated document without consulting the checker at all: even
a checker rejecting every document cannot make it fail, and the new
content is written.  Second: with two schemas cached, update_node
validates against whichever schema happens to be first in the cache, so an
update of a document governed by S2 fails with S1's violations. -/
theorem update_bypasses_schema_validation :
    update_node rejectAllChecker [] c1Store "D" "/title" (Json.num 42) 1 7 =
      (.ok (Json.num 42, 2),
        { docs := [("D", Json.obj [("title", Json.num 42)])],
          metas := [("D", { doc_id := "D", version := 2, created_at := 0,
                            updated_at := 7 })] }) ∧
    update_node markerChecker
        [("S1", Json.obj [("marker1", Json.null)]), ("S2", Json.obj [])]
        c1Store "D" "/title" (Json.str "New") 1 7 =
      (.error (.validationFailed
          [{ message := "does not conform to schema S1", path := "",
             validator := "type" }]), c1Store) := ⟨rfl, rfl⟩

/-! ### Claim C4: metadata version lifecycle -/
theorem createWithSchema_ok (checker : Checker) (st : Store)
    (schema document : Json) (customId : Option String) (genId : String)
    (now : Nat) (rid : String) (rmd : DocumentMetadata) (store2 : Store)
    (h : createWithSchema checker st schema document customId genId now =
      .ok ((rid, rmd), store2)) :
    rmd.version = 1 ∧ rmd.created_at = now ∧ rmd.updated_at = now ∧
    getKey store2.metas rid = some rmd := by
  unfold createWithSchema at h
  cases hc : checker (apply_defaults document schema) schema with
  | nil =>
      simp only [hc, Except.ok.injEq, Prod.mk.injEq] at h
      obtain ⟨⟨hid, hmd⟩, hstv⟩ := h
      subst hid
      subst hmd
      subst hstv
      exact ⟨rfl, rfl, rfl, getKey_setKey_self ..⟩
  | cons e es => simp [hc] at h

/-- C4: metadata versions start at 1 on creation (with both timestamps set
to the creation instant) and change only through `increment_version`, which
builds a new instance with version exactly one higher and `updated_at` set
to the mutation instant, leaving `doc_id` and `created_at` untouched; each
of update/createNode/deleteNode, when it succeeds, stores exactly the
incremented metadata and returns the incremented version. -/
theorem metadata_version_lifecycle
    (checker : Checker) (cache : List (String × Json)) (st : Store)
    (docId path : String) (value res : Json) (ev : Int) (now : Nat)
    (m : DocumentMetadata) (nv : Int) (st2 : Store)
    (schemaStore : List (String × Json)) (fuel : Nat) (s : SvcState)
    (schemaId : String) (document : Json) (customId : Option String)
    (genId : String) (rid : String) (rmd : DocumentMetadata) (s2 : SvcState) :
    ((increment_version m now).version = m.version + 1 ∧
     (increment_version m now).doc_id = m.doc_id ∧
     (increment_version m now).created_at = m.created_at ∧
     (increment_version m now).updated_at = now) ∧
    (create_document checker schemaStore fuel s schemaId document customId
        genId now = (.ok (rid, rmd), s2) →
      rmd.version = 1 ∧ rmd.created_at = now ∧ rmd.updated_at = now ∧
      getKey s2.store.metas rid = some rmd) ∧
    (getKey st.metas docId = some m →
      update_node checker cache st docId path value ev now =
        (.ok (res, nv), st2) →
      nv = m.version + 1 ∧
      getKey st2.metas docId = some (increment_version m now)) ∧
    (getKey st.metas docId = some m →
      create_node checker cache st docId path value ev now =
        (.ok (res, nv), st2) →
      nv = m.version + 1 ∧
      getKey st2.metas docId = some (increment_version m now)) ∧
    (getKey st.metas docId = some m →
      delete_node checker cache st docId path ev now = (.ok (res, nv), st2) →
      nv = m.version + 1 ∧
      getKey st2.metas docId = some (increment_version m now)) := by
  refine ⟨⟨rfl, rfl, rfl, rfl⟩, ?_, ?_, ?_, ?_⟩
  · -- create_document: version 1, both timestamps now, metadata written
    intro hsucc
    unfold create_document at hsucc
    cases hcid : (match customId with
        | none => (.ok () : Except Err Unit)
        | some cid => checkCustomId cid (readDocExc s.store.docs cid)) with
    | error e => simp [hcid] at hsucc
    | ok u =>
        simp only [hcid] at hsucc
        cases hdc : getKey s.dcache schemaId with
        | some schema =>
            simp only [hdc] at hsucc
            cases hcw : createWithSchema checker s.store schema document
                customId genId now with
            | error e => simp [hcw] at hsucc
            | ok pr =>
                obtain ⟨⟨rid2, rmd2⟩, store2⟩ := pr
                simp only [hcw, Prod.mk.injEq, Except.ok.injEq] at hsucc
                obtain ⟨⟨hr1, hr2⟩, hr3⟩ := hsucc
                subst hr1
                subst hr2
                subst hr3
                simpa using createWithSchema_ok checker s.store schema document
                  customId genId now _ _ _ hcw
        | none =>
            simp only [hdc] at hsucc
            cases hls : load_schema schemaStore s.scache fuel schemaId with
            | mk r scache2 =>
                cases r with
                | error e => simp [hls] at hsucc
                | ok schema =>
                    simp only [hls] at hsucc
                    cases hcw : createWithSchema checker s.store schema document
                        customId genId now with
                    | error e => simp [hcw] at hsucc
                    | ok pr =>
                        obtain ⟨⟨rid2, rmd2⟩, store2⟩ := pr
                        simp only [hcw, Prod.mk.injEq, Except.ok.injEq] at hsucc
                        obtain ⟨⟨hr1, hr2⟩, hr3⟩ := hsucc
                        subst hr1
                        subst hr2
                        subst hr3
                        simpa using createWithSchema_ok checker s.store schema
                          document customId genId now _ _ _ hcw
  · -- update_node
    intro hm hsucc
    unfold update_node at hsucc
    cases hld : loadDocument st.docs docId with
    | error e => simp [hld] at hsucc
    | ok document2 =>
        simp only [hld, hm] at hsucc
        by_cases hv : m.version ≠ ev
        · rw [if_pos hv] at hsucc
          simp at hsucc
        · rw [if_neg hv] at hsucc
          cases hset : set_pointer document2 path value with
          | error e => simp [hset] at hsucc
          | ok newDoc =>
              simp only [hset] at hsucc
              cases hval : validateWithCache checker cache newDoc with
              | error e => simp [hval] at hsucc
              | ok u =>
                  simp only [hval, Prod.mk.injEq, Except.ok.injEq] at hsucc
                  obtain ⟨⟨hres, hnv⟩, hst⟩ := hsucc
                  subst hst
                  exact ⟨hnv.symm, getKey_setKey_self ..⟩
  · -- create_node
    intro hm hsucc
    unfold create_node at hsucc
    cases hld : loadDocument st.docs docId with
    | error e => simp [hld] at hsucc
    | ok document2 =>
        simp only [hld, hm] at hsucc
        by_cases hv : m.version ≠ ev
        · rw [if_pos hv] at hsucc
          simp at hsucc
        · rw [if_neg hv] at hsucc
          cases hres0 : resolve_pointer document2 path with
          | error e => simp [hres0] at hsucc
          | ok parent =>
              simp only [hres0] at hsucc
              cases parent with
              | arr xs =>
                  cases hpp : parse_pointer path with
                  | error e => simp [hpp] at hsucc
                  | ok toks =>
                      simp only [hpp] at hsucc
                      cases hrep : replaceAt toks document2 (.arr (xs ++ [value])) with
                      | none => simp [hrep] at hsucc
                      | some newDoc =>
                          simp only [hrep] at hsucc
                          cases hval : validateWithCache checker cache newDoc with
                          | error e => simp [hval] at hsucc
                          | ok u =>
                              simp only [hval, Prod.mk.injEq,
                                Except.ok.injEq] at hsucc
                              obtain ⟨⟨hres, hnv⟩, hst⟩ := hsucc
                              subst hst
                              exact ⟨hnv.symm, getKey_setKey_self ..⟩
              | obj fs => simp at hsucc
              | null => simp at hsucc
              | bool b => simp at hsucc
              | num n => simp at hsucc
              | str t => simp at hsucc
  · -- delete_node
    intro hm hsucc
    unfold delete_node at hsucc
    by_cases hroot : path = "/"
    · rw [if_pos hroot] at hsucc
      simp at hsucc
    · rw [if_neg hroot] at hsucc
      cases hld : loadDocument st.docs docId with
      | error e => simp [hld] at hsucc
      | ok document2 =>
          simp only [hld, hm] at hsucc
          by_cases hv : m.version ≠ ev
          · rw [if_pos hv] at hsucc
            simp at hsucc
          · rw [if_neg hv] at hsucc
            cases hres0 : resolve_pointer document2 path with
            | error e => simp [hres0] at hsucc
            | ok deletedValue =>
                simp only [hres0] at hsucc
                cases hdel : delete_pointer document2 path with
                | error e => simp [hdel] at hsucc
                | ok newDoc =>
                    simp only [hdel] at hsucc
                    cases hval : validateWithCache checker cache newDoc with
                    | error e => simp [hval] at hsucc
                    | ok u =>
                        simp only [hval, Prod.mk.injEq, Except.ok.injEq] at hsucc
                        obtain ⟨⟨hres, hnv⟩, hst⟩ := hsucc
                        subst hst
                        exact ⟨hnv.symm, getKey_setKey_self ..⟩

/-- Witness for C4: a successful concrete update stores the incremented
metadata, and a successful concrete create stores version-1 metadata with
both timestamps set to the creation instant. -/
theorem metadata_version_lifecycle_witness :
    ((2 : Int) = 1 + 1 ∧
      getKey c4UpdatedStore.metas "D" = some (increment_version c4Meta0 7)) ∧
    (c4Meta9.version = 1 ∧ c4Meta9.created_at = 9 ∧ c4Meta9.updated_at = 9 ∧
      getKey c4CreateOutState.store.metas "G" = some c4Meta9) := by
  constructor
  · exact (metadata_version_lifecycle okChecker [] c1Store "D" "/title"
      (Json.num 42) (Json.num 42) 1 7 c4Meta0 2 c4UpdatedStore
      [] 0 c4CreateInState "S" Json.null none "G" "X" c4Meta9
      c4CreateInState).2.2.1 rfl rfl
  · have hcreate : create_document okChecker [] 0 c4CreateInState "S"
        (Json.obj []) none "G" 9 = (.ok ("G", c4Meta9), c4CreateOutState) := by
      simp [create_document, createWithSchema, apply_defaults, applyDefaultsRec,
        getKey, okChecker, c4CreateInState, c4CreateOutState, c4Meta9,
        emptyStore, setKey]
    exact (metadata_version_lifecycle okChecker [] emptyStore "D" "/" Json.null
      Json.null 1 9 c4Meta0 1 emptyStore [] 0 c4CreateInState "S" (Json.obj [])
      none "G" "G" c4Meta9 c4CreateOutState).2.1 hcreate

end JsonSchemaCore

